import Mathlib

/-!
Verification of the markdown-to-wordpress publisher core:
a shallow embedding of src/parser.py, src/utils.py and src/uploader.py.
Strings are modelled as lists of characters; the filesystem is an oracle
from absolute paths to existence booleans; the regular expressions used by
the source are embedded as direct scanning functions implementing the
exact leftmost, lazy/greedy and backtracking semantics of the patterns.
-/

namespace MdWp

/-- Python strings, modelled as lists of characters. -/
abbrev Str := List Char

/-- Conversion from Lean string literals. -/
def str (s : String) : Str := s.data

/-- The character class matched by the regex class backslash-s and stripped
by str.strip for ASCII input. -/
def isPyWhitespace (c : Char) : Bool :=
  c == ' ' || c == '\t' || c == '\n' || c == '\r' || c == '\x0b' || c == '\x0c'

/-- Python str.strip with no argument: drop whitespace at both ends. -/
def pyStrip (s : Str) : Str :=
  ((s.dropWhile isPyWhitespace).reverse.dropWhile isPyWhitespace).reverse

/-- Python str.lower restricted to ASCII letters. -/
def pyLower (s : Str) : Str := s.map Char.toLower

/-- Python str.replace for an empty pattern: the replacement is inserted
before every character and at the end. -/
def pyReplaceEmpty (new : Str) : Str → Str
  | [] => new
  | c :: rest => new ++ c :: pyReplaceEmpty new rest

/-- Python str.replace for a nonempty pattern, scanning left to right and
skipping past each replaced occurrence. The fuel argument dominates the
input length so the recursion is structural. -/
def pyReplaceCoreF (o : Char) (os new : Str) : Nat → Str → Str
  | 0, s => s
  | _ + 1, [] => []
  | fuel + 1, c :: rest =>
    if (o :: os).isPrefixOf (c :: rest) then
      new ++ pyReplaceCoreF o os new fuel (rest.drop os.length)
    else
      c :: pyReplaceCoreF o os new fuel rest

/-- Python str.replace(old, new) with all occurrences replaced. -/
def pyReplace (s old new : Str) : Str :=
  match old with
  | [] => pyReplaceEmpty new s
  | o :: os => pyReplaceCoreF o os new (s.length + 1) s

/-- Python dict with string keys: insertion-ordered association list. -/
abbrev PyDict (α : Type) := List (Str × α)

/-- Python dict lookup, returning an option. -/
def dictGet? {α : Type} (d : PyDict α) (k : Str) : Option α :=
  (d.find? (fun p => p.1 == k)).map (fun p => p.2)

/-- Python dict.get(k, v) with a default. -/
def dictGetD {α : Type} (d : PyDict α) (k : Str) (v : α) : α :=
  (dictGet? d k).getD v

/-- Python dict key-set assignment: overwrite in place if the key is
present, append otherwise. -/
def dictSet {α : Type} (d : PyDict α) (k : Str) (v : α) : PyDict α :=
  if d.any (fun p => p.1 == k) then
    d.map (fun p => if p.1 == k then (k, v) else p)
  else d ++ [(k, v)]

/-- The key list of a dict, in insertion order. -/
def dictKeys {α : Type} (d : PyDict α) : List Str := d.map (fun p => p.1)

/-! ## Regex machinery

The three link patterns of the source are

- parser.py:  (!?)\[.*?\]\((.*?)(\s+"[^"]+")?\)
- utils.py:   !\[.*?\]\((.*?)(\s+"[^"]+")?\)   (embedded-media pass)
- utils.py:   \[.*?\]\((.*?)\)                 (plain-link pass)

all without DOTALL, so the dot excludes the newline. They are embedded as
one scanner parameterised by whether the bang is optional, required or
absent, and whether the optional quoted-title group is part of the
pattern. -/

/-- One regex match: the whole matched text, whether the bang was present,
the target group, and the remaining input after the match. -/
structure MatchRes where
  g0 : Str
  mark : Bool
  target : Str
  rest : Str
deriving DecidableEq, Repr

/-- How the leading bang of the pattern is treated. -/
inductive BangMode
  | opt
  | req
  | off
deriving DecidableEq, Repr

/-- Render the optional title group. -/
def optStr : Option Str → Str
  | none => []
  | some t => t

/-- The optional quoted-title group followed by the closing paren: a
nonempty run of whitespace, a quote, a nonempty run of non-quote
characters, a quote, then the closing paren must follow. Returns the
group-3 text and the input after the closing paren. -/
def tryTitle (l : Str) : Option (Str × Str) :=
  let ws := l.takeWhile isPyWhitespace
  let l1 := l.dropWhile isPyWhitespace
  if ws.isEmpty then none
  else
    match l1 with
    | '"' :: l2 =>
      let body := l2.takeWhile (fun c => c != '"')
      let l3 := l2.dropWhile (fun c => c != '"')
      if body.isEmpty then none
      else
        match l3 with
        | '"' :: ')' :: rest => some (ws ++ '"' :: (body ++ ['"']), rest)
        | _ => none
    | _ => none

/-- The lazy target group: at each position first try the title group with
its closing paren, then a bare closing paren, then extend the target by
one non-newline character. Returns target, optional title group, rest. -/
def parseTail (title : Bool) : Str → Option (Str × Option Str × Str)
  | [] => none
  | c :: rest =>
    match (if title then tryTitle (c :: rest) else none) with
    | some (t, r) => some ([], some t, r)
    | none =>
      if c = ')' then some ([], none, rest)
      else if c = '\n' then none
      else
        match parseTail title rest with
        | some (tgt, t, r) => some (c :: tgt, t, r)
        | none => none

/-- Attempt to close the label at this character: it must be a closing
bracket immediately followed by an opening paren and a successful tail. -/
def mabClose (title : Bool) (c : Char) (rest : Str) : Option (Str × Option Str × Str) :=
  if c = ']' then
    match rest with
    | '(' :: l2 => parseTail title l2
    | _ => none
  else none

/-- The lazy label group with backtracking: try to close the label at each
closing bracket in turn; on failure the bracket becomes part of the
label. A newline ends the search since the label dot excludes it. -/
def mabAux (title : Bool) : Str → Option (Str × Str × Option Str × Str)
  | [] => none
  | c :: rest =>
    if c = '\n' then none
    else
      match mabClose title c rest with
      | some (tgt, t, r) => some ([], tgt, t, r)
      | none =>
        match mabAux title rest with
        | some (lbl, tgt, t, r) => some (c :: lbl, tgt, t, r)
        | none => none

/-- Assemble a match record from its pieces. -/
def mkMatch (bang : Bool) (lbl tgt : Str) (t : Option Str) (r : Str) : MatchRes :=
  { g0 := (if bang then ['!'] else []) ++ '[' :: (lbl ++ ']' :: '(' :: (tgt ++ optStr t ++ [')'])),
    mark := bang, target := tgt, rest := r }

/-- Try the pattern anchored at the start of the input. -/
def matchAt (mode : BangMode) (title : Bool) : Str → Option MatchRes
  | '!' :: '[' :: l =>
    if mode = .off then none
    else (mabAux title l).map (fun p => mkMatch true p.1 p.2.1 p.2.2.1 p.2.2.2)
  | '[' :: l =>
    if mode = .req then none
    else (mabAux title l).map (fun p => mkMatch false p.1 p.2.1 p.2.2.1 p.2.2.2)
  | _ => none

/-- Leftmost match: try every start position from the left. Returns the
text before the match and the match itself. -/
def findMatch (mode : BangMode) (title : Bool) : Str → Option (Str × MatchRes)
  | [] => none
  | c :: rest =>
    match matchAt mode title (c :: rest) with
    | some m => some ([], m)
    | none =>
      match findMatch mode title rest with
      | some (pre, m) => some (c :: pre, m)
      | none => none

/-- Decomposition property of the title parser: the consumed text plus the
closing paren plus the rest reassembles the input. -/
theorem tryTitle_spec {l t rest : Str} (h : tryTitle l = some (t, rest)) :
    t ++ ')' :: rest = l := by
  simp only [tryTitle] at h
  split at h
  · exact absurd h (by simp)
  · split at h
    case h_1 l2 heq =>
      split at h
      · exact absurd h (by simp)
      · split at h
        case h_1 rest0 heq3 =>
          injection h with h1
          injection h1 with ht hr
          subst ht hr
          have e1 : l.takeWhile isPyWhitespace ++ l.dropWhile isPyWhitespace = l :=
            List.takeWhile_append_dropWhile _ _
          have e2 : l2.takeWhile (fun c => c != '"') ++ l2.dropWhile (fun c => c != '"') = l2 :=
            List.takeWhile_append_dropWhile _ _
          rw [heq3] at e2
          rw [heq] at e1
          conv_rhs => rw [← e1, ← e2]
          simp
        case h_2 => exact absurd h (by simp)
    case h_2 => exact absurd h (by simp)

/-- Decomposition property of the tail parser: target, optional title
group, closing paren and rest reassemble the input. -/
theorem parseTail_spec : ∀ {title : Bool} {l tgt : Str} {t : Option Str} {r : Str},
    parseTail title l = some (tgt, t, r) → tgt ++ optStr t ++ ')' :: r = l := by
  intro title l
  induction l with
  | nil => intro tgt t r h; simp [parseTail] at h
  | cons c rest ih =>
    intro tgt t r h
    simp only [parseTail] at h
    rcases htt : (if title then tryTitle (c :: rest) else none) with _ | ⟨t0, r0⟩
    · rw [htt] at h
      simp only [] at h
      split at h
      · injection h with h1
        injection h1 with h2 h3
        injection h3 with h4 h5
        subst h2 h4 h5
        simp_all [optStr]
      · split at h
        · exact absurd h (by simp)
        · rcases hpt : parseTail title rest with _ | ⟨tgt0, t1, r1⟩
          · rw [hpt] at h; exact absurd h (by simp)
          · rw [hpt] at h
            injection h with h1
            injection h1 with h2 h3
            injection h3 with h4 h5
            subst h2 h4 h5
            have := ih hpt
            simp [← this]
    · rw [htt] at h
      simp only [] at h
      injection h with h1
      injection h1 with h2 h3
      injection h3 with h4 h5
      subst h2 h4 h5
      have htitle : tryTitle (c :: rest) = some (t0, r0) := by
        by_cases hb : title
        · simpa [hb] using htt
        · simp [hb] at htt
      have := tryTitle_spec htitle
      simpa [optStr] using this

/-- Decomposition property of the label-close attempt. -/
theorem mabClose_spec {title : Bool} {c : Char} {rest tgt : Str} {t : Option Str} {r : Str}
    (h : mabClose title c rest = some (tgt, t, r)) :
    c :: rest = ']' :: '(' :: (tgt ++ optStr t ++ ')' :: r) := by
  simp only [mabClose] at h
  split at h
  case isTrue hc =>
    subst hc
    split at h
    case h_1 l2 =>
      rw [parseTail_spec h]
    case h_2 => exact absurd h (by simp)
  case isFalse => exact absurd h (by simp)

/-- Decomposition property of the label parser with backtracking. -/
theorem mabAux_spec : ∀ {title : Bool} {l lbl tgt : Str} {t : Option Str} {r : Str},
    mabAux title l = some (lbl, tgt, t, r) →
    lbl ++ ']' :: '(' :: (tgt ++ optStr t ++ ')' :: r) = l := by
  intro title l
  induction l with
  | nil => intro lbl tgt t r h; simp [mabAux] at h
  | cons c rest ih =>
    intro lbl tgt t r h
    simp only [mabAux] at h
    split at h
    · exact absurd h (by simp)
    · rcases hmc : mabClose title c rest with _ | ⟨tgt0, t0, r0⟩
      · rw [hmc] at h
        simp only [] at h
        rcases hma : mabAux title rest with _ | ⟨lbl1, tgt1, t1, r1⟩
        · rw [hma] at h; exact absurd h (by simp)
        · rw [hma] at h
          injection h with h1
          injection h1 with h2 h3
          injection h3 with h4 h5
          injection h5 with h6 h7
          subst h2 h4 h6 h7
          have := ih hma
          simp [← this]
      · rw [hmc] at h
        simp only [] at h
        injection h with h1
        injection h1 with h2 h3
        injection h3 with h4 h5
        injection h5 with h6 h7
        subst h2 h4 h6 h7
        have := mabClose_spec hmc
        simp [this]

/-- Decomposition property of an anchored match: the whole match followed
by the rest reassembles the input, and the match is nonempty. -/
theorem matchAt_spec {mode : BangMode} {title : Bool} {s : Str} {m : MatchRes}
    (h : matchAt mode title s = some m) : m.g0 ++ m.rest = s ∧ m.g0 ≠ [] := by
  unfold matchAt at h
  split at h
  case h_1 l =>
    split at h
    · exact absurd h (by simp)
    · rcases hma : mabAux title l with _ | ⟨lbl, tgt, t, r⟩
      · rw [hma] at h; exact absurd h (by simp)
      · rw [hma] at h
        injection h with h1
        subst h1
        have := mabAux_spec hma
        constructor
        · simp [mkMatch, ← this]
        · simp [mkMatch]
  case h_2 l =>
    split at h
    · exact absurd h (by simp)
    · rcases hma : mabAux title l with _ | ⟨lbl, tgt, t, r⟩
      · rw [hma] at h; exact absurd h (by simp)
      · rw [hma] at h
        injection h with h1
        subst h1
        have := mabAux_spec hma
        constructor
        · simp [mkMatch, ← this]
        · simp [mkMatch]
  case h_3 => exact absurd h (by simp)

/-- Decomposition property of the leftmost-match search. -/
theorem findMatch_spec : ∀ {mode : BangMode} {title : Bool} {s pre : Str} {m : MatchRes},
    findMatch mode title s = some (pre, m) →
    pre ++ m.g0 ++ m.rest = s ∧ m.g0 ≠ [] := by
  intro mode title s
  induction s with
  | nil => intro pre m h; simp [findMatch] at h
  | cons c rest ih =>
    intro pre m h
    simp only [findMatch] at h
    rcases hma : matchAt mode title (c :: rest) with _ | m0
    · rw [hma] at h
      simp only [] at h
      rcases hfm : findMatch mode title rest with _ | ⟨pre1, m1⟩
      · rw [hfm] at h; exact absurd h (by simp)
      · rw [hfm] at h
        injection h with h1
        injection h1 with h2 h3
        subst h2 h3
        obtain ⟨e, ne⟩ := ih hfm
        exact ⟨by simp [← e], ne⟩
    · rw [hma] at h
      simp only [] at h
      injection h with h1
      injection h1 with h2 h3
      subst h2 h3
      obtain ⟨e, ne⟩ := matchAt_spec hma
      exact ⟨by simpa using e, ne⟩

/-- The text after a found match is strictly shorter than the input. -/
theorem findMatch_rest_lt {mode : BangMode} {title : Bool} {s pre : Str} {m : MatchRes}
    (h : findMatch mode title s = some (pre, m)) : m.rest.length < s.length := by
  obtain ⟨e, ne⟩ := findMatch_spec h
  have hlen : (pre ++ m.g0 ++ m.rest).length = s.length := by rw [e]
  simp only [List.length_append] at hlen
  have hg : 0 < m.g0.length := List.length_pos.mpr ne
  omega

/-- Fuel-indexed body of re.sub: replace the leftmost match and continue
after it. The fuel dominates the input length so the recursion is
structural and computable by the kernel. -/
def reSubF (mode : BangMode) (title : Bool) (f : MatchRes → Str) : Nat → Str → Str
  | 0, s => s
  | fuel + 1, s =>
    match findMatch mode title s with
    | none => s
    | some (pre, m) => pre ++ f m ++ reSubF mode title f fuel m.rest

/-- Python re.sub with a replacement callback. -/
def reSub (mode : BangMode) (title : Bool) (f : MatchRes → Str) (s : Str) : Str :=
  reSubF mode title f (s.length + 1) s

/-- Fuel-indexed body of re.findall. -/
def findAllF (mode : BangMode) (title : Bool) : Nat → Str → List MatchRes
  | 0, _ => []
  | fuel + 1, s =>
    match findMatch mode title s with
    | none => []
    | some (_, m) => m :: findAllF mode title fuel m.rest

/-- Python re.findall: the list of non-overlapping matches, leftmost
first, each search resuming after the previous match. -/
def findAll (mode : BangMode) (title : Bool) (s : Str) : List MatchRes :=
  findAllF mode title (s.length + 1) s

/-- A segment of the input: either plain text between matches or one
match. -/
inductive Seg
  | plain (p : Str)
  | mat (m : MatchRes)
deriving Repr

/-- Fuel-indexed alternating decomposition of the input into plain text
and matches. -/
def segsOfF (mode : BangMode) (title : Bool) : Nat → Str → List Seg
  | 0, s => [.plain s]
  | fuel + 1, s =>
    match findMatch mode title s with
    | none => [.plain s]
    | some (pre, m) => .plain pre :: .mat m :: segsOfF mode title fuel m.rest

/-- Alternating decomposition of the input into plain text and matches. -/
def segsOf (mode : BangMode) (title : Bool) (s : Str) : List Seg :=
  segsOfF mode title (s.length + 1) s

/-- Render a segment list, mapping every match through a function and
keeping plain text verbatim. -/
def renderWith (f : MatchRes → Str) (l : List Seg) : Str :=
  l.foldr (fun sg acc => (match sg with | .plain p => p | .mat m => f m) ++ acc) []

/-- Fuel-indexed version: rendering the segments with the original match
text gives back the input. -/
theorem renderWithF_g0 (mode : BangMode) (title : Bool) : ∀ (fuel : Nat) (s : Str),
    s.length < fuel → renderWith (fun m => m.g0) (segsOfF mode title fuel s) = s := by
  intro fuel
  induction fuel with
  | zero => intro s hs; omega
  | succ fuel ih =>
    intro s hs
    rw [segsOfF]
    cases hfm : findMatch mode title s with
    | none => simp [renderWith]
    | some pm =>
      obtain ⟨pre, m⟩ := pm
      have hlt := findMatch_rest_lt hfm
      have hrec := ih m.rest (by omega)
      obtain ⟨e, _⟩ := findMatch_spec hfm
      simp only [renderWith, List.foldr_cons] at hrec ⊢
      rw [hrec, ← List.append_assoc]
      exact e

/-- Rendering the segments with the original match text gives back the
input: the decomposition loses no byte. -/
theorem renderWith_g0 (mode : BangMode) (title : Bool) (s : Str) :
    renderWith (fun m => m.g0) (segsOf mode title s) = s :=
  renderWithF_g0 mode title (s.length + 1) s (by omega)

/-- Fuel-indexed version: substitution equals segment-wise rendering. -/
theorem reSubF_renderWith (mode : BangMode) (title : Bool) (f : MatchRes → Str) :
    ∀ (fuel : Nat) (s : Str), s.length < fuel →
    reSubF mode title f fuel s = renderWith f (segsOfF mode title fuel s) := by
  intro fuel
  induction fuel with
  | zero => intro s hs; omega
  | succ fuel ih =>
    intro s hs
    rw [reSubF, segsOfF]
    cases hfm : findMatch mode title s with
    | none => simp [renderWith]
    | some pm =>
      obtain ⟨pre, m⟩ := pm
      have hlt := findMatch_rest_lt hfm
      have hrec := ih m.rest (by omega)
      simp only [renderWith, List.foldr_cons] at hrec ⊢
      rw [hrec]
      simp [List.append_assoc]

/-- Substitution equals segment-wise rendering: plain segments verbatim,
match segments through the callback. -/
theorem reSub_renderWith (mode : BangMode) (title : Bool) (f : MatchRes → Str) (s : Str) :
    reSub mode title f s = renderWith f (segsOf mode title s) :=
  reSubF_renderWith mode title f (s.length + 1) s (by omega)

/-! ## Python library functions used by the source -/

/-- The characters urllib allows inside a URL scheme. -/
def isSchemeChar (c : Char) : Bool :=
  c.isAlpha || c.isDigit || c == '+' || c == '-' || c == '.'

/-- The scheme component computed by urllib.parse.urlparse: the text
before the first colon, lower-cased, provided it is nonempty, starts with
a letter and contains only scheme characters; otherwise empty. -/
def urlScheme (s : Str) : Str :=
  let before := s.takeWhile (fun c => c != ':')
  if before.length < s.length then
    match before with
    | [] => []
    | c :: _ => if c.isAlpha && before.all isSchemeChar then pyLower before else []
  else []

/-- Python str.split(sep) for a single-character separator. -/
def splitOnChar (sep : Char) : Str → List Str
  | [] => [[]]
  | c :: rest =>
    match splitOnChar sep rest with
    | [] => [[]]
    | h :: t => if c = sep then [] :: h :: t else (c :: h) :: t

/-- os.path.join for one extra component, POSIX rules. -/
def pyJoin (base p : Str) : Str :=
  match p with
  | '/' :: _ => p
  | _ =>
    if base = [] then p
    else if base.getLast? = some '/' then base ++ p
    else base ++ '/' :: p

/-- Component normalisation of posixpath.normpath for an absolute path:
empty and dot components vanish, dot-dot pops the previous component. -/
def normComps : List Str → List Str → List Str
  | acc, [] => acc.reverse
  | acc, comp :: rest =>
    if comp = [] ∨ comp = ['.'] then normComps acc rest
    else if comp = ['.', '.'] then normComps (acc.drop 1) rest
    else normComps (comp :: acc) rest

/-- os.path.abspath(os.path.join(base, p)) for an absolute base
directory, as used to resolve local references. -/
def pyAbsJoin (base p : Str) : Str :=
  '/' :: List.intercalate ['/'] (normComps [] (splitOnChar '/' (pyJoin base p)))

/-- os.path.basename: the text after the last slash. -/
def pyBasename (s : Str) : Str := (splitOnChar '/' s).getLastD []

/-! ## The data model of parser.py -/

/-- The Asset dataclass: original path as written, resolved absolute
path, image flag, and the derived file name. Equality is structural over
all four fields, exactly as the generated dataclass equality. -/
structure Asset where
  original_path : Str
  absolute_path : Str
  is_image : Bool
  file_name : Str
deriving DecidableEq, Repr

/-- The Asset constructor: post-init derives the file name from the
absolute path. -/
def mkAsset (original_path absolute_path : Str) (is_image : Bool) : Asset :=
  { original_path := original_path, absolute_path := absolute_path,
    is_image := is_image, file_name := pyBasename absolute_path }

/-- The MD_ParsedResult dataclass. -/
structure MD_ParsedResult where
  content : Str
  file_path : Str
  dir_path : Str
  external_links : List Str
  local_assets : List Asset
  cover_image : Option Asset
  front_matter : PyDict Str
deriving DecidableEq, Repr

/-! ## Front matter extraction

The pattern is  ^---\s*\n(.*?)\n---\s*  with DOTALL, searched without
MULTILINE, so the match is anchored at offset zero. The greedy \s*\n
consumes the longest whitespace run ending in a newline that still allows
a later newline-dash-dash-dash, and the lazy group stops at the first
such occurrence. -/

/-- Scan for the first occurrence of newline-dash-dash-dash and return
the characters before it. -/
def fmFindBody : Str → Option Str
  | [] => none
  | c :: rest =>
    if ['\n', '-', '-', '-'].isPrefixOf (c :: rest) then some []
    else
      match fmFindBody rest with
      | some b => some (c :: b)
      | none => none

/-- The group-1 text of the front-matter pattern, if the pattern matches
at the start of the content. -/
def fmBlock (content : Str) : Option Str :=
  match content with
  | '-' :: '-' :: '-' :: rest =>
    let ws := rest.takeWhile isPyWhitespace
    (((List.range ws.length).filter (fun j => rest.get? j = some '\n')).reverse).findSome?
      (fun j => fmFindBody (rest.drop (j + 1)))
  | _ => none

/-- One line of the block: strip, skip blank and comment lines, split at
the first colon into a lower-cased trimmed key and a trimmed value. -/
def fmLineEntry (line : Str) : Option (Str × Str) :=
  let l := pyStrip line
  match l with
  | [] => none
  | c :: _ =>
    if c = '#' then none
    else if l.contains ':' then
      some (pyLower (pyStrip (l.takeWhile (fun c2 => c2 != ':'))),
            pyStrip ((l.dropWhile (fun c2 => c2 != ':')).drop 1))
    else none

/-- MarkdownParser._extract_front_matter: fold the per-line entries of
the block into a dict; no block yields the empty dict. -/
def extract_front_matter (content : Str) : PyDict Str :=
  match fmBlock content with
  | none => []
  | some body =>
    (splitOnChar '\n' body).foldl
      (fun d line =>
        match fmLineEntry line with
        | some (k, v) => dictSet d k v
        | none => d) []

/-! ## Link extraction -/

/-- MarkdownParser._process_local_asset: resolve against the base
directory, check existence against the filesystem oracle, and append an
Asset on success; otherwise leave the result untouched. -/
def process_local_asset (fs : Str → Bool) (mark : Bool) (path base : Str)
    (r : MD_ParsedResult) : MD_ParsedResult :=
  let abs := pyAbsJoin base path
  if fs abs then
    { r with local_assets := r.local_assets ++ [mkAsset path abs mark] }
  else r

/-- The loop body of MarkdownParser._extract_links: strip the target,
skip it when empty, record external links, delegate local ones. -/
def linkStep (fs : Str → Bool) (base : Str) (r : MD_ParsedResult) (m : MatchRes) :
    MD_ParsedResult :=
  let path := pyStrip m.target
  if path = [] then r
  else if urlScheme path = str "http" ∨ urlScheme path = str "https" then
    { r with external_links := r.external_links ++ [path] }
  else process_local_asset fs m.mark path base r

/-- MarkdownParser._extract_links: iterate the loop body over every
match of the combined link pattern. -/
def extract_links (fs : Str → Bool) (content base : Str) (r : MD_ParsedResult) :
    MD_ParsedResult :=
  (findAll .opt true content).foldl (linkStep fs base) r

/-! ## Cover extraction

The pattern is  <!--\s*cover:\s*(.*?)\s*-->  searched for its first
match. -/

/-- The lazy cover group: stop at the first position from which a
whitespace run followed by the closing marker completes the comment; a
newline inside the group is impossible. -/
def coverLazy : Str → Option Str
  | [] => none
  | c :: rest =>
    if ['-', '-', '>'].isPrefixOf ((c :: rest).dropWhile isPyWhitespace) then some []
    else if c = '\n' then none
    else
      match coverLazy rest with
      | some g => some (c :: g)
      | none => none

/-- Try the cover pattern anchored at this position; return group 1. -/
def coverAt (l : Str) : Option Str :=
  if ['<', '!', '-', '-'].isPrefixOf l then
    let l1 := (l.drop 4).dropWhile isPyWhitespace
    if ['c', 'o', 'v', 'e', 'r', ':'].isPrefixOf l1 then
      coverLazy ((l1.drop 6).dropWhile isPyWhitespace)
    else none
  else none

/-- First match of the cover pattern anywhere in the content. -/
def coverSearch : Str → Option Str
  | [] => none
  | c :: rest =>
    match coverAt (c :: rest) with
    | some g => some g
    | none => coverSearch rest

/-- MarkdownParser._is_image_file: extension membership on the
lower-cased path. -/
def is_image_file (p : Str) : Bool :=
  [str ".jpg", str ".jpeg", str ".png", str ".gif", str ".webp", str ".svg"].any
    (fun ext => ext.isSuffixOf (pyLower p))

/-- MarkdownParser._extract_cover_image, as the value it computes and
returns (the cover path stored on the parser object when every check
passes). The crucial point of the source is that this method never
writes to the result record: it assigns self.cover_path and returns it,
and parse discards the returned value. -/
def extract_cover_image (fs : Str → Bool) (content base : Str) : Option Str :=
  match coverSearch content with
  | none => none
  | some g =>
    let cover_path := pyStrip g
    if cover_path = [] then none
    else
      let abs := pyAbsJoin base cover_path
      if fs abs = false then none
      else if is_image_file abs = false then none
      else some cover_path

/-- MarkdownParser.parse after the file has been read: build the result
with the front matter, run link extraction, then run cover extraction.
The cover step mutates only parser state and returns a string that parse
ignores, so the result record it produced is returned unchanged and
cover_image keeps its initial value None. -/
def parse (fs : Str → Bool) (content file_path dir_path : Str) : MD_ParsedResult :=
  let r0 : MD_ParsedResult :=
    { content := content, file_path := file_path, dir_path := dir_path,
      external_links := [], local_assets := [], cover_image := none,
      front_matter := extract_front_matter content }
  let r1 := extract_links fs content dir_path r0
  let _cover := extract_cover_image fs content dir_path
  r1

/-! ## utils.replace_markdown_links -/

/-- The regex callback _replace_link: strip group 1, look it up in the
map with itself as default, and replace every occurrence of it inside
the whole matched span. -/
def replaceLink (link_map : PyDict Str) (m : MatchRes) : Str :=
  let old_link := pyStrip m.target
  let new_link := dictGetD link_map old_link old_link
  pyReplace m.g0 old_link new_link

/-- utils.replace_markdown_links: early return on an empty map, then the
embedded-media pass followed by the plain-link pass. -/
def replace_markdown_links (md_content : Str) (link_map : PyDict Str) : Str :=
  if link_map = [] then md_content
  else
    reSub .off false (replaceLink link_map)
      (reSub .req true (replaceLink link_map) md_content)

/-! ## uploader.WordPressUploader.upload_assets -/

/-- The outcome of one call to _upload_single_asset: either an exception
was raised, or a pair of an optional URL and an optional media id was
returned. -/
inductive UploadOutcome
  | raised
  | ret (url : Option Str) (media_id : Option Int)

/-- Python truthiness of the returned URL. -/
def urlTruthy : Option Str → Bool
  | none => false
  | some u => !u.isEmpty

/-- Python truthiness of the returned media id. -/
def idTruthy : Option Int → Bool
  | none => false
  | some n => n != 0

/-- The loop body of upload_assets: on a normal return with both values
truthy, insert into both maps under the original path; in every other
case leave both maps unchanged. -/
def uploadStep (maps : PyDict Str × PyDict Int) (orig : Str) (out : UploadOutcome) :
    PyDict Str × PyDict Int :=
  match out with
  | .raised => maps
  | .ret url mid =>
    if urlTruthy url && idTruthy mid then
      (dictSet maps.1 orig ((url).getD []), dictSet maps.2 orig ((mid).getD 0))
    else maps

/-- WordPressUploader.upload_assets with the per-call outcome supplied
as an oracle indexed by the 1-based position: returns the link map and
the media-id map. -/
def upload_assets (f : Nat → Asset → UploadOutcome) (assets : List Asset) :
    PyDict Str × PyDict Int :=
  (assets.enum).foldl
    (fun maps p => uploadStep maps p.2.original_path (f (p.1 + 1) p.2)) ([], [])

/-- The upload set assembled by publish_from_parsed_result: the local
assets, plus the cover when present and not already a member under
dataclass equality. -/
def assets_to_upload (pr : MD_ParsedResult) : List Asset :=
  match pr.cover_image with
  | none => pr.local_assets
  | some c =>
    if pr.local_assets.contains c then pr.local_assets
    else pr.local_assets ++ [c]

/-! ## Helper lemmas -/

/-- Replacing a pattern by itself is the identity, empty-pattern case. -/
theorem pyReplaceEmpty_nil : ∀ s : Str, pyReplaceEmpty [] s = s := by
  intro s
  induction s with
  | nil => rfl
  | cons c rest ih => simp [pyReplaceEmpty, ih]

/-- Replacing a nonempty pattern by itself is the identity, for any fuel
dominating the input length. -/
theorem pyReplaceCoreF_self (o : Char) (os : Str) : ∀ (fuel : Nat) (s : Str),
    s.length < fuel → pyReplaceCoreF o os (o :: os) fuel s = s := by
  intro fuel
  induction fuel with
  | zero => intro s hs; omega
  | succ fuel ih =>
    intro s hs
    match s with
    | [] => rfl
    | c :: rest =>
      rw [pyReplaceCoreF]
      by_cases hp : (o :: os).isPrefixOf (c :: rest)
      · rw [if_pos hp]
        obtain ⟨t, ht⟩ := (List.isPrefixOf_iff_prefix.mp hp)
        have hdrop : rest.drop os.length = t := by
          have h2 : ((o :: os) ++ t).drop (o :: os).length = t := by
            simp [List.drop_left]
          rw [ht] at h2
          simpa using h2
        have hlen : t.length < (c :: rest).length := by
          have h3 := congrArg List.length ht
          simp at h3
          simp
          omega
        have hsl : (c :: rest).length ≤ fuel := by
          simpa using Nat.lt_succ_iff.mp hs
        rw [hdrop, ih t (by omega), ht]
      · rw [if_neg hp]
        have hsl : (c :: rest).length ≤ fuel := by
          simpa using Nat.lt_succ_iff.mp hs
        rw [ih rest (by simp at hsl; omega)]

/-- Python str.replace with identical old and new text changes nothing. -/
theorem pyReplace_self (s old : Str) : pyReplace s old old = s := by
  match old with
  | [] => exact pyReplaceEmpty_nil s
  | o :: os => exact pyReplaceCoreF_self o os (s.length + 1) s (by omega)

/-- Fuel-indexed version: a substitution whose callback reproduces every
match verbatim is the identity. -/
theorem reSubF_id {mode : BangMode} {title : Bool} {f : MatchRes → Str} :
    ∀ (fuel : Nat) (s : Str), s.length < fuel →
    (∀ mm ∈ findAllF mode title fuel s, f mm = mm.g0) → reSubF mode title f fuel s = s := by
  intro fuel
  induction fuel with
  | zero => intro s hs; omega
  | succ fuel ih =>
    intro s hs hall
    rw [reSubF]
    rw [findAllF] at hall
    cases hfm : findMatch mode title s with
    | none => rfl
    | some pm =>
      obtain ⟨pre, m⟩ := pm
      rw [hfm] at hall
      simp only [List.mem_cons] at hall
      have hm : f m = m.g0 := hall m (Or.inl rfl)
      have hlt := findMatch_rest_lt hfm
      have hrest : reSubF mode title f fuel m.rest = m.rest :=
        ih m.rest (by omega) (fun mm hmm => hall mm (Or.inr hmm))
      show pre ++ f m ++ reSubF mode title f fuel m.rest = s
      rw [hm, hrest]
      exact (findMatch_spec hfm).1

/-- A substitution whose callback reproduces every match verbatim is the
identity. -/
theorem reSub_id {mode : BangMode} {title : Bool} {f : MatchRes → Str} (s : Str)
    (h : ∀ mm ∈ findAll mode title s, f mm = mm.g0) : reSub mode title f s = s :=
  reSubF_id (s.length + 1) s (by omega) h

/-- The stripped targets of the two rewrite passes of
replace_markdown_links, computed on the original body. -/
def linkTargets (body : Str) : List Str :=
  ((findAll .req true body).map (fun m => pyStrip m.target)) ++
    ((findAll .off false body).map (fun m => pyStrip m.target))

/-- Claim C7: rewriting with the empty mapping returns the body
unchanged, and rewriting with a mapping none of whose keys occurs as a
link target of either pass leaves the body unchanged. -/
theorem claim_C7 (body : Str) (m : PyDict Str)
    (h : ∀ t ∈ linkTargets body, dictGet? m t = none) :
    replace_markdown_links body [] = body ∧ replace_markdown_links body m = body := by
  constructor
  · simp [replace_markdown_links]
  · unfold replace_markdown_links
    by_cases hm : m = []
    · rw [if_pos hm]
    · rw [if_neg hm]
      have hfirst : reSub .req true (replaceLink m) body = body := by
        apply reSub_id
        intro mm hmm
        have hnone : dictGet? m (pyStrip mm.target) = none := by
          apply h
          unfold linkTargets
          exact List.mem_append_left _ (List.mem_map_of_mem _ hmm)
        unfold replaceLink
        simp only [dictGetD, hnone, Option.getD_none]
        exact pyReplace_self _ _
      rw [hfirst]
      apply reSub_id
      intro mm hmm
      have hnone : dictGet? m (pyStrip mm.target) = none := by
        apply h
        unfold linkTargets
        exact List.mem_append_right _ (List.mem_map_of_mem _ hmm)
      unfold replaceLink
      simp only [dictGetD, hnone, Option.getD_none]
      exact pyReplace_self _ _

/-- Witness for C7 at a concrete body whose link targets avoid the keys
of a concrete nonempty mapping. -/
theorem claim_C7_witness :
    replace_markdown_links (str "[a](x) and [b](http://e) end") [] =
        str "[a](x) and [b](http://e) end" ∧
    replace_markdown_links (str "[a](x) and [b](http://e) end")
        [(str "zzz", str "u")] = str "[a](x) and [b](http://e) end" :=
  claim_C7 (str "[a](x) and [b](http://e) end") [(str "zzz", str "u")] (by decide)

/-- Claim C8: the round trip from the spec: the embedded-media target is
replaced and the label and quoted title survive both passes. -/
theorem claim_C8 :
    replace_markdown_links (str "![alt](img/a.png \"t\")")
        [(str "img/a.png", str "https://cdn.example/a.png")] =
      str "![alt](https://cdn.example/a.png \"t\")" := by
  decide

/-- Counterexample to claim C2 as stated: when the label of a plain link
equals its mapped target, the span-wide replace rewrites the label too,
so the label bytes do not survive unchanged. -/
theorem claim_C2_counterexample :
    replace_markdown_links (str "[img/a.png](img/a.png)")
        [(str "img/a.png", str "https://u")] = str "[https://u](https://u)" ∧
    replace_markdown_links (str "[img/a.png](img/a.png)")
        [(str "img/a.png", str "https://u")] ≠ str "[img/a.png](https://u)" := by
  constructor
  · decide
  · decide

/-- Claim C2 as amended: for a nonempty mapping, each pass decomposes its
input into alternating plain and matched segments that reassemble the
input byte-for-byte, and the output renders the same segments with every
matched span rewritten by the span-wide replace of its stripped target;
plain segments, hence every byte outside matched link constructs, pass
through verbatim. -/
theorem claim_C2_amended (body : Str) (m : PyDict Str) (hm : m ≠ []) :
    renderWith (fun mm => mm.g0) (segsOf .req true body) = body ∧
    renderWith (fun mm => mm.g0)
        (segsOf .off false (renderWith (replaceLink m) (segsOf .req true body))) =
      renderWith (replaceLink m) (segsOf .req true body) ∧
    replace_markdown_links body m =
      renderWith (replaceLink m)
        (segsOf .off false (renderWith (replaceLink m) (segsOf .req true body))) := by
  refine ⟨renderWith_g0 _ _ _, renderWith_g0 _ _ _, ?_⟩
  unfold replace_markdown_links
  rw [if_neg hm, reSub_renderWith, reSub_renderWith]

/-- Witness for C2 as amended, at the counterexample input. -/
theorem claim_C2_amended_witness :
    renderWith (fun mm => mm.g0) (segsOf .req true (str "[img/a.png](img/a.png)")) =
        str "[img/a.png](img/a.png)" ∧
    renderWith (fun mm => mm.g0)
        (segsOf .off false
          (renderWith (replaceLink [(str "img/a.png", str "https://u")])
            (segsOf .req true (str "[img/a.png](img/a.png)")))) =
      renderWith (replaceLink [(str "img/a.png", str "https://u")])
        (segsOf .req true (str "[img/a.png](img/a.png)")) ∧
    replace_markdown_links (str "[img/a.png](img/a.png)")
        [(str "img/a.png", str "https://u")] =
      renderWith (replaceLink [(str "img/a.png", str "https://u")])
        (segsOf .off false
          (renderWith (replaceLink [(str "img/a.png", str "https://u")])
            (segsOf .req true (str "[img/a.png](img/a.png)")))) :=
  claim_C2_amended (str "[img/a.png](img/a.png)")
    [(str "img/a.png", str "https://u")] (by decide)

/-- Claim C3 counterexample: two assets sharing the original reference
but resolved to different absolute paths are not equal, because the
dataclass equality compares every field. -/
theorem claim_C3_counterexample :
    (mkAsset (str "x") (str "/a/x") true).original_path =
        (mkAsset (str "x") (str "/b/x") true).original_path ∧
    mkAsset (str "x") (str "/a/x") true ≠ mkAsset (str "x") (str "/b/x") true := by
  constructor
  · decide
  · decide

/-- Claim C3 as amended: dataclass equality of constructed assets holds
exactly when original path, absolute path and image flag all agree; the
derived file name adds no discriminating power. -/
theorem claim_C3_amended (o1 a1 : Str) (i1 : Bool) (o2 a2 : Str) (i2 : Bool) :
    mkAsset o1 a1 i1 = mkAsset o2 a2 i2 ↔ o1 = o2 ∧ a1 = a2 ∧ i1 = i2 := by
  constructor
  · intro h
    simp only [mkAsset, Asset.mk.injEq] at h
    exact ⟨h.1, h.2.1, h.2.2.1⟩
  · rintro ⟨h1, h2, h3⟩
    rw [h1, h2, h3]

/-- The Boolean classification used by the external-link branch of the
extraction loop: nonempty stripped target whose scheme is http or
https. -/
def isExternalTarget (p : Str) : Bool :=
  !p.isEmpty && ((urlScheme p == str "http") || (urlScheme p == str "https"))

/-- The stripped targets of all matches that the extraction loop records
as external links, in match order with duplicates kept. -/
def extTargets (content : Str) : List Str :=
  ((findAll .opt true content).map (fun m => pyStrip m.target)).filter isExternalTarget

/-- One extraction step appends exactly the external targets it sees. -/
theorem linkStep_external (fs : Str → Bool) (base : Str) (r : MD_ParsedResult)
    (m : MatchRes) :
    (linkStep fs base r m).external_links =
      r.external_links ++
        (if isExternalTarget (pyStrip m.target) then [pyStrip m.target] else []) := by
  unfold linkStep isExternalTarget
  by_cases h1 : pyStrip m.target = []
  · simp [h1]
  · rw [if_neg h1]
    by_cases h2 : urlScheme (pyStrip m.target) = str "http" ∨
        urlScheme (pyStrip m.target) = str "https"
    · rw [if_pos h2]
      have hb : ((urlScheme (pyStrip m.target) == str "http") ||
          (urlScheme (pyStrip m.target) == str "https")) = true := by
        rcases h2 with h2 | h2 <;> simp [h2]
      simp [hb, List.isEmpty_iff, h1]
    · rw [if_neg h2]
      have hb : ((urlScheme (pyStrip m.target) == str "http") ||
          (urlScheme (pyStrip m.target) == str "https")) = false := by
        push_neg at h2
        simp [h2.1, h2.2]
      unfold process_local_asset
      rw [hb]
      simp only [Bool.and_false, if_false, List.append_nil]
      split <;> simp

/-- Folding the extraction loop over any match list appends exactly the
external targets of those matches. -/
theorem foldl_linkStep_external (fs : Str → Bool) (base : Str) :
    ∀ (ms : List MatchRes) (r : MD_ParsedResult),
    ((ms.foldl (linkStep fs base) r).external_links) =
      r.external_links ++ (ms.map (fun m => pyStrip m.target)).filter isExternalTarget := by
  intro ms
  induction ms with
  | nil => intro r; simp
  | cons m t ih =>
    intro r
    simp only [List.foldl_cons, List.map_cons, List.filter_cons]
    rw [ih, linkStep_external]
    by_cases hc : isExternalTarget (pyStrip m.target)
    · simp [hc]
    · simp [hc]

/-- Claim C4 as amended: the external links produced by link extraction
are exactly the stripped targets of the external matches, appended in
first-seen order with duplicates kept, for every filesystem oracle, so
no existence check is involved; at the parse level the list is exactly
these targets. -/
theorem claim_C4_amended (fs : Str → Bool) (content file_path dir_path : Str)
    (r : MD_ParsedResult) :
    (extract_links fs content dir_path r).external_links =
      r.external_links ++ extTargets content ∧
    (parse fs content file_path dir_path).external_links = extTargets content := by
  constructor
  · exact foldl_linkStep_external fs dir_path (findAll .opt true content) r
  · unfold parse extract_links
    rw [foldl_linkStep_external]
    rfl

/-- Claim C4 counterexample: a link target written with a trailing space
has scheme http, yet the recorded external link is the stripped text,
not the text as it appeared between the parentheses. -/
theorem claim_C4_counterexample :
    ((findAll .opt true (str "[x](http://e.com )")).map (fun m => m.target)) =
        [str "http://e.com "] ∧
    urlScheme (str "http://e.com ") = str "http" ∧
    (parse (fun _ => false) (str "[x](http://e.com )") (str "/doc/a.md")
        (str "/doc")).external_links = [str "http://e.com"] ∧
    (parse (fun _ => false) (str "[x](http://e.com )") (str "/doc/a.md")
        (str "/doc")).external_links ≠ [str "http://e.com "] := by
  refine ⟨by decide, by decide, by decide, by decide⟩

/-- Claim C6: a local reference whose resolved path the filesystem does
not contain produces no asset and leaves the parse state untouched; the
embedded function is total, so no exception escapes. -/
theorem claim_C6 (fs : Str → Bool) (mark : Bool) (path base : Str)
    (r : MD_ParsedResult) (h : fs (pyAbsJoin base path) = false) :
    process_local_asset fs mark path base r = r := by
  unfold process_local_asset
  simp [h]

/-- A concrete parse state used by witnesses. -/
def sampleResult : MD_ParsedResult :=
  { content := str "x", file_path := str "/d/a.md", dir_path := str "/d",
    external_links := [], local_assets := [], cover_image := none, front_matter := [] }

/-- Witness for C6 on an empty filesystem and a concrete reference. -/
theorem claim_C6_witness :
    (fun _ : Str => false) (pyAbsJoin (str "/d") (str "missing.png")) = false ∧
    process_local_asset (fun _ => false) true (str "missing.png") (str "/d")
        sampleResult = sampleResult :=
  ⟨rfl, claim_C6 (fun _ => false) true (str "missing.png") (str "/d") sampleResult rfl⟩

/-- Claim C10: a match whose target strips to nothing is skipped by the
extraction loop: the state passes through unchanged, so nothing reaches
external_links or local_assets. -/
theorem claim_C10 (fs : Str → Bool) (base : Str) (r : MD_ParsedResult) (m : MatchRes)
    (h : pyStrip m.target = []) : linkStep fs base r m = r := by
  unfold linkStep
  simp [h]

/-- Witness for C10: the whitespace-only target produced by a concrete
body is dropped by the loop. -/
theorem claim_C10_witness :
    findAll .opt true (str "[x](   )") =
        [{ g0 := str "[x](   )", mark := false, target := str "   ", rest := [] }] ∧
    pyStrip (str "   ") = [] ∧
    linkStep (fun _ => false) (str "/d") sampleResult
        { g0 := str "[x](   )", mark := false, target := str "   ", rest := [] } =
      sampleResult :=
  ⟨by decide, by decide,
    claim_C10 (fun _ => false) (str "/d") sampleResult
      { g0 := str "[x](   )", mark := false, target := str "   ", rest := [] } (by decide)⟩

/-- Membership testing of a key among entry keys coincides with testing
among the key list. -/
theorem dictAny_keys {α : Type} (d : PyDict α) (k : Str) :
    d.any (fun p => p.1 == k) = (dictKeys d).any (fun x => x == k) := by
  induction d with
  | nil => rfl
  | cons p t ih => simp only [dictKeys, List.map_cons, List.any_cons] at ih ⊢; rw [ih]

/-- The key list after an assignment depends only on the key list before
it. -/
theorem dictKeys_dictSet {α : Type} (d : PyDict α) (k : Str) (v : α) :
    dictKeys (dictSet d k v) =
      if (dictKeys d).any (fun x => x == k) then dictKeys d else dictKeys d ++ [k] := by
  unfold dictSet
  rw [dictAny_keys]
  split
  case isTrue h =>
    simp only [dictKeys, List.map_map]
    apply List.map_congr_left
    intro p _
    by_cases hp : p.1 == k
    · have : p.1 = k := by simpa using hp
      simp [Function.comp, hp, this]
    · simp [Function.comp, hp]
  case isFalse h =>
    simp [dictKeys]

/-- Claim C9: the two maps returned by upload_assets always carry the
same keys in the same order, because entries are only ever inserted in
pairs under the same original path. -/
theorem claim_C9 (f : Nat → Asset → UploadOutcome) (assets : List Asset) :
    dictKeys (upload_assets f assets).1 = dictKeys (upload_assets f assets).2 := by
  unfold upload_assets
  have H : ∀ (l : List (Nat × Asset)) (maps : PyDict Str × PyDict Int),
      dictKeys maps.1 = dictKeys maps.2 →
      dictKeys ((l.foldl
          (fun maps p => uploadStep maps p.2.original_path (f (p.1 + 1) p.2)) maps)).1 =
        dictKeys ((l.foldl
          (fun maps p => uploadStep maps p.2.original_path (f (p.1 + 1) p.2)) maps)).2 := by
    intro l
    induction l with
    | nil => intro maps hm; simpa using hm
    | cons p t ih =>
      intro maps hm
      simp only [List.foldl_cons]
      apply ih
      unfold uploadStep
      cases f (p.1 + 1) p.2 with
      | raised => exact hm
      | ret url mid =>
        by_cases hc : (urlTruthy url && idTruthy mid) = true
        · simp only [hc, if_true]
          rw [dictKeys_dictSet, dictKeys_dictSet, hm]
        · simp only [hc, if_false]
          exact hm
  exact H assets.enum ([], []) rfl

/-- Option.or with an absent right operand. -/
theorem opt_or_none {α : Type} (a : Option α) : a.or none = a := by
  cases a <;> rfl

/-- Option.or discards everything after a present value. -/
theorem opt_or_some_or {α : Type} (a : Option α) (v : α) (b : Option α) :
    (a.or (some v)).or b = a.or (some v) := by
  cases a <;> rfl

/-- The last element of a cons as an Option.or chain. -/
theorem getLast?_cons_or {α : Type} (v : α) (L : List α) :
    (v :: L).getLast? = (L.getLast?).or (some v) := by
  cases L with
  | nil => rfl
  | cons a t =>
    rw [List.getLast?_cons_cons]
    cases h : (a :: t).getLast? with
    | none => exact absurd (List.getLast?_eq_none_iff.mp h) (by simp)
    | some x => rfl

/-- Mapping the in-place overwrite over a dict leaves lookups of other
keys unchanged. -/
theorem find?_map_ne {α : Type} (d : PyDict α) (k q : Str) (v : α) (hne : ¬ q = k) :
    (d.map (fun p => if p.1 == k then (k, v) else p)).find? (fun p => p.1 == q) =
      d.find? (fun p => p.1 == q) := by
  induction d with
  | nil => rfl
  | cons p t ih =>
    simp only [List.map_cons]
    by_cases hp : p.1 = k
    · have hb : (p.1 == k) = true := by simpa using hp
      rw [if_pos hb]
      have h1 : ¬ (((k, v).1 == q) = true) := by
        simp only [beq_iff_eq]
        exact fun hh => hne hh.symm
      have h2 : ¬ ((p.1 == q) = true) := by
        simp only [beq_iff_eq, hp]
        exact fun hh => hne hh.symm
      rw [@List.find?_cons_of_neg _ (fun p => p.1 == q) (k, v) _ h1,
        @List.find?_cons_of_neg _ (fun p => p.1 == q) p _ h2, ih]
    · have hb : ¬ ((p.1 == k) = true) := by simpa using hp
      rw [if_neg hb]
      by_cases hq : p.1 = q
      · have h1 : (p.1 == q) = true := by simpa using hq
        rw [@List.find?_cons_of_pos _ (fun p => p.1 == q) p _ h1,
          @List.find?_cons_of_pos _ (fun p => p.1 == q) p _ h1]
      · have h1 : ¬ ((p.1 == q) = true) := by simpa using hq
        rw [@List.find?_cons_of_neg _ (fun p => p.1 == q) p _ h1,
          @List.find?_cons_of_neg _ (fun p => p.1 == q) p _ h1, ih]

/-- When the key is present, the in-place overwrite makes its first
occurrence carry the new value. -/
theorem find?_map_eq {α : Type} (d : PyDict α) (k : Str) (v : α)
    (hany : d.any (fun p => p.1 == k) = true) :
    (d.map (fun p => if p.1 == k then (k, v) else p)).find? (fun p => p.1 == k) =
      some (k, v) := by
  induction d with
  | nil => simp at hany
  | cons p t ih =>
    simp only [List.map_cons]
    by_cases hp : p.1 = k
    · have hb : (p.1 == k) = true := by simpa using hp
      rw [if_pos hb]
      exact List.find?_cons_of_pos _ (by simp)
    · have hb : ¬ ((p.1 == k) = true) := by simpa using hp
      rw [if_neg hb, @List.find?_cons_of_neg _ (fun p => p.1 == k) p _ hb]
      apply ih
      simp only [List.any_cons, Bool.or_eq_true] at hany
      rcases hany with h | h
      · exact absurd h hb
      · exact h

/-- Dict lookup after assignment: the assigned key reads the new value,
every other key reads as before. -/
theorem dictGet?_dictSet {α : Type} (d : PyDict α) (k : Str) (v : α) (q : Str) :
    dictGet? (dictSet d k v) q = if q = k then some v else dictGet? d q := by
  unfold dictSet dictGet?
  by_cases hany : d.any (fun p => p.1 == k) = true
  · rw [if_pos hany]
    by_cases hq : q = k
    · subst hq
      rw [if_pos rfl, find?_map_eq d q v hany]
      rfl
    · rw [if_neg hq, find?_map_ne d k q v hq]
  · rw [if_neg hany, List.find?_append]
    by_cases hq : q = k
    · subst hq
      have hnone : d.find? (fun p => p.1 == q) = none := by
        rw [List.find?_eq_none]
        intro x hx hcontra
        exact hany (List.any_eq_true.mpr ⟨x, hx, hcontra⟩)
      have hone : List.find? (fun p => p.1 == q) [(q, v)] = some (q, v) :=
        List.find?_cons_of_pos _ (by simp)
      rw [hnone, hone, if_pos rfl]
      rfl
    · have hone : List.find? (fun p => p.1 == q) [(k, v)] = none := by
        have hkq : ¬ (((k, v).1 == q) = true) := by
          simp only [beq_iff_eq]
          exact fun hh => hq hh.symm
        rw [@List.find?_cons_of_neg _ (fun p => p.1 == q) (k, v) _ hkq]
        rfl
      rw [hone, opt_or_none, if_neg hq]

/-- Folding front-matter lines into a dict realises last-write-wins: a
lookup returns the value of the last processed line bearing the key,
falling back to the initial dict. -/
theorem foldl_fmLine_get (q : Str) : ∀ (lines : List Str) (d : PyDict Str),
    dictGet? (lines.foldl (fun d line =>
        match fmLineEntry line with
        | some (k, v) => dictSet d k v
        | none => d) d) q =
      (((((lines.filterMap fmLineEntry).filter (fun p => p.1 == q)).map
        (fun p => p.2)).getLast?)).or (dictGet? d q) := by
  intro lines
  induction lines with
  | nil => intro d; rfl
  | cons line t ih =>
    intro d
    simp only [List.foldl_cons, List.filterMap_cons]
    cases he : fmLineEntry line with
    | none =>
      simp only []
      exact ih d
    | some kv =>
      obtain ⟨k, v⟩ := kv
      simp only []
      rw [ih, dictGet?_dictSet, List.filter_cons]
      by_cases hqk : q = k
      · subst hqk
        have hfilt : (((q, v).1 == q) = true) := by simp
        rw [if_pos hfilt, if_pos rfl]
        simp only [List.map_cons]
        rw [getLast?_cons_or, opt_or_some_or]
      · have hbf : ¬ (((k, v).1 == q) = true) := by
          simp only [beq_iff_eq]
          exact fun hh => hqk hh.symm
        rw [if_neg hbf, if_neg hqk]

/-- Claim C5: with no leading front-matter block the mapping is empty,
and with a block each lookup returns the trimmed value of the last
non-blank non-comment colon line of the block whose trimmed lower-cased
key matches; other lines contribute nothing. -/
theorem claim_C5 (content : Str) :
    (fmBlock content = none → extract_front_matter content = []) ∧
    ∀ body, fmBlock content = some body → ∀ q,
      dictGet? (extract_front_matter content) q =
        ((((splitOnChar '\n' body).filterMap fmLineEntry).filter
          (fun p => p.1 == q)).map (fun p => p.2)).getLast? := by
  constructor
  · intro h
    unfold extract_front_matter
    rw [h]
  · intro body hb q
    unfold extract_front_matter
    rw [hb, foldl_fmLine_get, show dictGet? ([] : PyDict Str) q = none from rfl,
      opt_or_none]

/-- A concrete front-matter document for the C5 witness. -/
def c5content : Str := str "---\ntitle: Hello\nTITLE: World\nbad line\n# comment\n---\nbody"

/-- The block the pattern extracts from the C5 witness document. -/
def c5body : Str := str "title: Hello\nTITLE: World\nbad line\n# comment"

/-- Witness for C5: a document with no block gives the empty mapping; in
the concrete document the duplicate key reads its last value, with the
key matched lower-cased. -/
theorem claim_C5_witness :
    extract_front_matter (str "no front matter") = [] ∧
    dictGet? (extract_front_matter c5content) (str "title") = some (str "World") := by
  constructor
  · exact (claim_C5 (str "no front matter")).1 (by decide)
  · have h := (claim_C5 c5content).2 c5body (by decide) (str "title")
    rw [h]
    decide

/-- Filesystem oracle for the C1 scenario: only /doc/cover.jpg exists. -/
def c1fs : Str → Bool := fun p => p == str "/doc/cover.jpg"

/-- The C1 scenario body: an embedded image and a cover annotation that
both reference cover.jpg. -/
def c1body : Str := str "![hero](cover.jpg)\n<!-- cover: cover.jpg -->"

/-- Claim C1 evaluated at the failing input: the body references
cover.jpg both as an embedded image and in a cover annotation, the file
exists and has an image extension, and the cover extractor does resolve
the path — yet the parse result keeps cover_image as None, because the
extractor stores the path on the parser object and parse discards its
return value; only the local_assets entry is produced. -/
theorem claim_C1_eval :
    (parse c1fs c1body (str "/doc/a.md") (str "/doc")).cover_image = none ∧
    (parse c1fs c1body (str "/doc/a.md") (str "/doc")).local_assets =
      [mkAsset (str "cover.jpg") (str "/doc/cover.jpg") true] ∧
    extract_cover_image c1fs c1body (str "/doc") = some (str "cover.jpg") := by
  exact ⟨by decide, by decide, by decide⟩

end MdWp
